import Mathlib

/-!
Verification of the fastNLP mini-batch iterator (`fastNLP/core/batch.py`).

The `Batch` class is embedded shallowly:
* `BatchIter` is the iterator's mutable state (`idx_list`, `curidx`, `lengths`);
* `iterStart` embeds `Batch.__iter__`;
* `nextBatch` embeds `Batch.__next__` (returning `none` for `StopIteration`);
* `runAux` iterates `nextBatch` with fuel, modelling one full pass.

Tensors are lists of natural numbers; a stacked 2-d tensor is a list of rows.
The dataset (`DataSet.get_length`, `DataSet.to_tensor`) lives in a module that
is not part of this repository snapshot, so those two operations are modelled
from the spec's dataset contract (see the doc comments below).
-/

namespace FastNLP

/-- A named dataset field: its name, its input/target tag, and the per-instance
values (each value a token sequence, encoded as a list of naturals). -/
structure Field where
  name : String
  isTarget : Bool
  values : List (List Nat)
deriving DecidableEq

/-- A dataset is an ordered collection of named fields (column view of the
ordered sequence of instances). -/
def DataSetT : Type := List Field

/-- Modelled from the spec: `DataSet.get_length` (the dataset module is not in
this snapshot) — "per field name, an ordered sequence of per-instance sequence
lengths". -/
def getLength (ds : List Field) : List (String × List Nat) :=
  ds.map (fun f => (f.name, f.values.map List.length))

/-- Dictionary lookup in an association list (first matching key wins). -/
def alookup {α : Type} (m : List (String × α)) (k : String) : Option α :=
  (m.find? (fun p => p.1 == k)).map (fun p => p.2)

/-- Modelled from the spec: padding/truncating one sequence to a requested
length (filler value 0). -/
def pad (v : List Nat) (L : Nat) : List Nat :=
  (v ++ List.replicate L 0).take L

/-- Modelled from the spec: `DataSet.to_tensor(index, padding_length_by_field)`
(the dataset module is not in this snapshot) — returns the pair
(input-field tensors, target-field tensors) for one instance, each field padded
to the requested per-field length. -/
def toTensor (ds : List Field) (idx : Nat) (padding : List (String × Nat)) :
    List (String × List Nat) × List (String × List Nat) :=
  ((ds.filter (fun f => !f.isTarget)).map
      (fun f => (f.name, pad (f.values.getD idx []) ((alookup padding f.name).getD 0))),
   (ds.filter (fun f => f.isTarget)).map
      (fun f => (f.name, pad (f.values.getD idx []) ((alookup padding f.name).getD 0))))

/-- A value stored in a produced batch dictionary: either a stacked 2-d tensor
(`torch.stack(tensor_list, dim=0)`) or a 1-d integer tensor
(`torch.LongTensor(origin_lengths[name])`). -/
inductive TVal : Type where
  | mat : List (List Nat) → TVal
  | vec : List Nat → TVal
deriving DecidableEq

/-- The iterator state of `Batch`: the sampled index ordering `idx_list`, the
cursor `curidx`, and the per-field length snapshot `lengths`. -/
structure BatchIter where
  idx_list : List Nat
  curidx : Nat
  lengths : List (String × List Nat)
deriving DecidableEq

/-- `Batch.__iter__`: re-invoke the sampler, reset the cursor to 0, snapshot
the lengths.  The previous state `prev` is the overwritten `self` state. -/
def iterStart (ds : List Field) (sampler : List Field → List Nat)
    (prev : BatchIter) : BatchIter :=
  { idx_list := sampler ds, curidx := 0, lengths := getLength ds }

/-- `endidx = min(self.curidx + self.batch_size, len(self.idx_list))`. -/
def endidxOf (st : BatchIter) (B : Nat) : Nat :=
  min (st.curidx + B) st.idx_list.length

/-- `defaultdict(list)` update `d[k].append(t)`: append to an existing key's
list in place, or install the new key at the end. -/
def dictAppend {α : Type} (a : List (String × List α)) (k : String) (t : α) :
    List (String × List α) :=
  if a.any (fun p => p.1 == k) then
    a.map (fun p => if p.1 == k then (p.1, p.2 ++ [t]) else p)
  else a ++ [(k, [t])]

/-- One instance's contribution to a batch dictionary:
`for name, tensor in x.items(): batch_x[name].append(tensor)`. -/
def addRow {α : Type} (a : List (String × List α)) (row : List (String × α)) :
    List (String × List α) :=
  row.foldl (fun acc p => dictAppend acc p.1 p.2) a

/-- One produced batch.  `idxs` records the dataset positions read by the loop
`for idx in range(self.curidx, endidx)` (observable as the rows of every
stacked tensor, in order); `batch_x` and `batch_y` are the two returned
dictionaries. -/
structure BatchOut where
  idxs : List Nat
  batch_x : List (String × TVal)
  batch_y : List (String × TVal)
deriving DecidableEq

/-- The body of `Batch.__next__` past the `StopIteration` guard: slice
`[curidx, endidx)`, per-field slice-max padding lengths, per-field slice origin
lengths, per-instance conversion, `defaultdict` aggregation, stacking, and the
`_origin_len` entries appended into `batch_x`. -/
def mkBatch (ds : List Field) (B : Nat) (st : BatchIter) : BatchOut :=
  let endidx := endidxOf st B
  let padding := st.lengths.map
    (fun p => (p.1, ((p.2.drop st.curidx).take (endidx - st.curidx)).foldl max 0))
  let origin := st.lengths.map
    (fun p => (p.1, (p.2.drop st.curidx).take (endidx - st.curidx)))
  let idxs := List.range' st.curidx (endidx - st.curidx)
  let xs := idxs.map (fun i => (toTensor ds i padding).1)
  let ys := idxs.map (fun i => (toTensor ds i padding).2)
  let bxRaw := xs.foldl addRow []
  let byRaw := ys.foldl addRow []
  let bx := bxRaw.map (fun p => (p.1, TVal.mat p.2))
  let bOrigin := bxRaw.map
    (fun p => (p.1 ++ "_origin_len", TVal.vec ((alookup origin p.1).getD [])))
  { idxs := idxs
    batch_x := bx ++ bOrigin
    batch_y := byRaw.map (fun p => (p.1, TVal.mat p.2)) }

/-- `Batch.__next__`: `StopIteration` (here `none`, state untouched) once
`self.curidx >= len(self.idx_list)`; otherwise produce a batch and advance the
cursor by `self.curidx += endidx` — the cursor-overshoot defect, kept as
written. -/
def nextBatch (ds : List Field) (B : Nat) (st : BatchIter) :
    Option BatchOut × BatchIter :=
  if st.idx_list.length ≤ st.curidx then (none, st)
  else (some (mkBatch ds B st), { st with curidx := st.curidx + endidxOf st B })

/-- The corrected step: identical except that the cursor is set to `endidx`
(the evidently-intended absolute position) instead of being incremented by it. -/
def nextBatchFixed (ds : List Field) (B : Nat) (st : BatchIter) :
    Option BatchOut × BatchIter :=
  if st.idx_list.length ≤ st.curidx then (none, st)
  else (some (mkBatch ds B st), { st with curidx := endidxOf st B })

/-- Iterate `nextBatch` with fuel, collecting the produced batches and the
final state. -/
def runAux (ds : List Field) (B : Nat) : Nat → BatchIter → List BatchOut × BatchIter
  | 0, st => ([], st)
  | fuel + 1, st =>
    match nextBatch ds B st with
    | (none, _) => ([], st)
    | (some b, st') =>
      let r := runAux ds B fuel st'
      (b :: r.1, r.2)

/-- Iterate the corrected step with fuel. -/
def runAuxFixed (ds : List Field) (B : Nat) :
    Nat → BatchIter → List BatchOut × BatchIter
  | 0, st => ([], st)
  | fuel + 1, st =>
    match nextBatchFixed ds B st with
    | (none, _) => ([], st)
    | (some b, st') =>
      let r := runAuxFixed ds B fuel st'
      (b :: r.1, r.2)

/-- One full pass of the iterator as written: enter iteration, then keep
requesting batches.  Fuel `len(idx_list)` suffices whenever `B ≥ 1`. -/
def runPass (ds : List Field) (B : Nat) (sampler : List Field → List Nat) :
    List BatchOut :=
  let st0 := iterStart ds sampler ⟨[], 0, []⟩
  (runAux ds B st0.idx_list.length st0).1

/-- One full pass of the corrected iterator. -/
def runPassFixed (ds : List Field) (B : Nat)
    (sampler : List Field → List Nat) : List BatchOut :=
  let st0 := iterStart ds sampler ⟨[], 0, []⟩
  (runAuxFixed ds B st0.idx_list.length st0).1

/-- The maximum per-instance length of a field over the slice `[a, b)` of the
dataset, computed from the field's values themselves. -/
def fieldSliceMax (f : Field) (a b : Nat) : Nat :=
  (((f.values.map List.length).drop a).take (b - a)).foldl max 0

/-- The per-instance lengths of a field over the slice `[a, b)`, in slice
order, computed from the field's values themselves. -/
def fieldSliceLens (f : Field) (a b : Nat) : List Nat :=
  ((f.values.map List.length).drop a).take (b - a)

/-- The concrete dataset of the spec's scenario: one input field "text" with
token-sequence lengths [4, 7, 2]. -/
def dsScenario : List Field :=
  [⟨"text", false, [[1, 2, 3, 4], [5, 6, 7, 8, 9, 10, 11], [12, 13]]⟩]

/-- The identity sampler of the spec's scenario. -/
def samplerScenario : List Field → List Nat := fun _ => [0, 1, 2]

/-- A five-instance single-field dataset used to exhibit the cursor defect. -/
def dsFive : List Field :=
  [⟨"text", false, [[1], [2], [3], [4], [5]]⟩]

/-- An identity sampler over five instances. -/
def samplerFive : List Field → List Nat := fun _ => [0, 1, 2, 3, 4]

/-- A mid-pass iterator state over `dsFive` with a nonzero cursor. -/
def stMid : BatchIter := ⟨[0, 1, 2, 3, 4], 1, getLength dsFive⟩

/-- The iterator state over `dsScenario` at the start of a pass. -/
def stScenario : BatchIter := ⟨[0, 1, 2], 0, getLength dsScenario⟩

/-- A dataset with one input field and one target field. -/
def dsPair : List Field :=
  [⟨"text", false, [[1, 2], [3], [4, 5, 6]]⟩,
   ⟨"label", true, [[0], [1], [0]]⟩]

/-- The iterator state over `dsPair` at the start of a pass. -/
def stPair : BatchIter := ⟨[0, 1, 2], 0, getLength dsPair⟩

/- ### General lemmas about the embedded operations -/

theorem pad_length (v : List Nat) (L : Nat) : (pad v L).length = L := by
  simp [pad]

theorem mkBatch_idxs (ds : List Field) (B : Nat) (st : BatchIter) :
    (mkBatch ds B st).idxs = List.range' st.curidx (endidxOf st B - st.curidx) := rfl

theorem alookup_append {α : Type} (l1 l2 : List (String × α)) (k : String) :
    alookup (l1 ++ l2) k = (alookup l1 k).or (alookup l2 k) := by
  unfold alookup
  rw [List.find?_append]
  cases l1.find? (fun p => p.1 == k) <;> simp

theorem alookup_map_field {α : Type} (t : Field → α) :
    ∀ (ds : List Field) (f : Field), (ds.map Field.name).Nodup → f ∈ ds →
      alookup (ds.map (fun g => (g.name, t g))) f.name = some (t f) := by
  intro ds
  induction ds with
  | nil => intro f _ hf; cases hf
  | cons g rest ih =>
    intro f hn hf
    simp only [List.map_cons, List.nodup_cons] at hn
    rcases List.mem_cons.mp hf with rfl | hmem
    · simp [alookup]
    · have hne : (g.name == f.name) = false := by
        apply beq_false_of_ne
        intro he
        exact hn.1 (he ▸ List.mem_map_of_mem Field.name hmem)
      simp only [alookup, List.map_cons, List.find?_cons, hne]
      exact ih f hn.2 hmem

theorem names_filter_nodup (ds : List Field) (p : Field → Bool)
    (hn : (ds.map Field.name).Nodup) : ((ds.filter p).map Field.name).Nodup :=
  hn.sublist ((ds.filter_sublist).map Field.name)

theorem addRow_keyed {α : Type} :
    ∀ (fs : List Field) (done : List (String × List α)) (g : Field → List α)
      (t : Field → α),
      (done.map Prod.fst ++ fs.map Field.name).Nodup →
      addRow (done ++ fs.map (fun f => (f.name, g f)))
          (fs.map (fun f => (f.name, t f))) =
        done ++ fs.map (fun f => (f.name, g f ++ [t f])) := by
  intro fs
  induction fs with
  | nil => intro done g t _; simp [addRow]
  | cons f rest ih =>
    intro done g t hnd
    simp only [List.map_cons, List.nodup_append, List.nodup_cons,
      List.mem_cons, List.mem_map] at hnd
    have hd : ∀ p ∈ done, (p.1 == f.name) = false := by
      intro p hp
      apply beq_false_of_ne
      intro he
      exact hnd.2.2 (List.mem_map_of_mem Prod.fst hp)
        (by rw [he]; exact List.mem_cons_self _ _)
    have hr : ∀ f' ∈ rest, ¬ f'.name = f.name := by
      intro f' hf' he
      exact hnd.2.1.1 ⟨f', hf', he⟩
    have h1 : done.map
        (fun p => if p.1 == f.name then (p.1, p.2 ++ [t f]) else p) = done := by
      have := List.map_congr_left (l := done)
        (f := fun p => if p.1 == f.name then (p.1, p.2 ++ [t f]) else p)
        (g := id) (by intro p hp; simp [hd p hp])
      simpa using this
    have h2 : (rest.map (fun f' => (f'.name, g f'))).map
        (fun p => if p.1 == f.name then (p.1, p.2 ++ [t f]) else p) =
        rest.map (fun f' => (f'.name, g f')) := by
      rw [List.map_map]
      apply List.map_congr_left
      intro f' hf'
      simp [hr f' hf']
    have hany : ((done ++ (f.name, g f) :: rest.map
        (fun f' => (f'.name, g f'))).any (fun p => p.1 == f.name)) = true := by
      simp [List.any_append, List.any_cons]
    have hstep :
        dictAppend (done ++ (f.name, g f) :: rest.map (fun f' => (f'.name, g f')))
            f.name (t f) =
          done ++ (f.name, g f ++ [t f]) :: rest.map (fun f' => (f'.name, g f')) := by
      unfold dictAppend
      rw [hany]
      simp only [if_true]
      rw [List.map_append, List.map_cons, h1, h2]
      simp
    show addRow _ ((f.name, t f) :: rest.map (fun f' => (f'.name, t f'))) = _
    unfold addRow
    rw [List.foldl_cons]
    show addRow (dictAppend
      (done ++ (f.name, g f) :: rest.map (fun f' => (f'.name, g f'))) f.name (t f))
      (rest.map (fun f' => (f'.name, t f'))) = _
    rw [hstep]
    have hre : done ++ (f.name, g f ++ [t f]) :: rest.map (fun f' => (f'.name, g f')) =
        (done ++ [(f.name, g f ++ [t f])]) ++ rest.map (fun f' => (f'.name, g f')) := by
      simp
    rw [hre, ih (done ++ [(f.name, g f ++ [t f])]) g t (by
      simp only [List.map_append, List.map_cons, List.map_nil]
      simp only [List.append_assoc, List.singleton_append]
      simp only [List.nodup_append, List.nodup_cons, List.mem_cons, List.mem_map] at hnd ⊢
      exact hnd)]
    simp

theorem addRow_fresh {α : Type} :
    ∀ (fs : List Field) (done : List (String × List α)) (t : Field → α),
      (done.map Prod.fst ++ fs.map Field.name).Nodup →
      addRow done (fs.map (fun f => (f.name, t f))) =
        done ++ fs.map (fun f => (f.name, [t f])) := by
  intro fs
  induction fs with
  | nil => intro done t _; simp [addRow]
  | cons f rest ih =>
    intro done t hnd
    simp only [List.map_cons, List.nodup_append, List.nodup_cons,
      List.mem_cons, List.mem_map] at hnd
    have hany : done.any (fun p => p.1 == f.name) = false := by
      rw [List.any_eq_false]
      intro p hp
      rw [Bool.not_eq_true]
      apply beq_false_of_ne
      intro he
      exact hnd.2.2 (List.mem_map_of_mem Prod.fst hp)
        (by rw [he]; exact List.mem_cons_self _ _)
    have hstep : dictAppend done f.name (t f) = done ++ [(f.name, [t f])] := by
      unfold dictAppend
      rw [hany]
      simp
    show addRow _ ((f.name, t f) :: rest.map (fun f' => (f'.name, t f'))) = _
    unfold addRow
    rw [List.foldl_cons]
    show addRow (dictAppend done f.name (t f)) (rest.map (fun f' => (f'.name, t f'))) = _
    rw [hstep, ih (done ++ [(f.name, [t f])]) t (by
      simp only [List.map_append, List.map_cons, List.map_nil]
      simp only [List.append_assoc, List.singleton_append]
      simp only [List.nodup_append, List.nodup_cons, List.mem_cons, List.mem_map] at hnd ⊢
      exact hnd)]
    simp

theorem foldl_addRow_grouped {α : Type} :
    ∀ (idxs : List Nat) (fs : List Field) (g : Field → List α)
      (t : Field → Nat → α),
      (fs.map Field.name).Nodup →
      (idxs.map (fun i => fs.map (fun f => (f.name, t f i)))).foldl addRow
          (fs.map (fun f => (f.name, g f))) =
        fs.map (fun f => (f.name, g f ++ idxs.map (t f))) := by
  intro idxs
  induction idxs with
  | nil => intro fs g t _; simp
  | cons i rest ih =>
    intro fs g t hn
    rw [List.map_cons, List.foldl_cons]
    have hstep := addRow_keyed fs [] g (fun f => t f i) (by simpa using hn)
    simp only [List.nil_append] at hstep
    rw [hstep, ih fs (fun f => g f ++ [t f i]) t hn]
    simp

theorem foldl_addRow_of_nil {α : Type} (fs : List Field) (i0 : Nat)
    (rest : List Nat) (t : Field → Nat → α) (hn : (fs.map Field.name).Nodup) :
    ((i0 :: rest).map (fun i => fs.map (fun f => (f.name, t f i)))).foldl addRow [] =
      fs.map (fun f => (f.name, (i0 :: rest).map (t f))) := by
  rw [List.map_cons, List.foldl_cons]
  have hfresh := addRow_fresh fs [] (fun f => t f i0) (by simpa using hn)
  simp only [List.nil_append] at hfresh
  rw [hfresh, foldl_addRow_grouped rest fs (fun f => [t f i0]) t hn]
  simp

/-- The batch body fully evaluated: under the pass invariants (the length
snapshot comes from the dataset, field names are distinct, the slice is
nonempty), `mkBatch` stacks each input/target field padded to its slice
maximum and appends one `_origin_len` entry per input field. -/
theorem mkBatch_eq (ds : List Field) (B : Nat) (st : BatchIter)
    (hsnap : st.lengths = getLength ds) (hn : (ds.map Field.name).Nodup)
    (hlt : st.curidx < endidxOf st B) :
    mkBatch ds B st =
      { idxs := List.range' st.curidx (endidxOf st B - st.curidx)
        batch_x :=
          (ds.filter (fun f => !f.isTarget)).map (fun f =>
            (f.name, TVal.mat ((List.range' st.curidx (endidxOf st B - st.curidx)).map
              (fun i => pad (f.values.getD i [])
                (fieldSliceMax f st.curidx (endidxOf st B)))))) ++
          (ds.filter (fun f => !f.isTarget)).map (fun f =>
            (f.name ++ "_origin_len",
             TVal.vec (fieldSliceLens f st.curidx (endidxOf st B))))
        batch_y :=
          (ds.filter (fun f => f.isTarget)).map (fun f =>
            (f.name, TVal.mat ((List.range' st.curidx (endidxOf st B - st.curidx)).map
              (fun i => pad (f.values.getD i [])
                (fieldSliceMax f st.curidx (endidxOf st B)))))) } := by
  have hpad : st.lengths.map (fun p =>
      (p.1, ((p.2.drop st.curidx).take (endidxOf st B - st.curidx)).foldl max 0)) =
      ds.map (fun g => (g.name, fieldSliceMax g st.curidx (endidxOf st B))) := by
    rw [hsnap]
    unfold getLength
    rw [List.map_map]
    rfl
  have horig : st.lengths.map (fun p =>
      (p.1, (p.2.drop st.curidx).take (endidxOf st B - st.curidx))) =
      ds.map (fun g => (g.name, fieldSliceLens g st.curidx (endidxOf st B))) := by
    rw [hsnap]
    unfold getLength
    rw [List.map_map]
    rfl
  have hrow1 : ∀ i : Nat,
      (toTensor ds i (ds.map (fun g =>
        (g.name, fieldSliceMax g st.curidx (endidxOf st B))))).1 =
      (ds.filter (fun f => !f.isTarget)).map (fun f =>
        (f.name, pad (f.values.getD i [])
          (fieldSliceMax f st.curidx (endidxOf st B)))) := by
    intro i
    unfold toTensor
    apply List.map_congr_left
    intro f hf
    rw [alookup_map_field _ ds f hn (List.mem_filter.mp hf).1]
    rfl
  have hrow2 : ∀ i : Nat,
      (toTensor ds i (ds.map (fun g =>
        (g.name, fieldSliceMax g st.curidx (endidxOf st B))))).2 =
      (ds.filter (fun f => f.isTarget)).map (fun f =>
        (f.name, pad (f.values.getD i [])
          (fieldSliceMax f st.curidx (endidxOf st B)))) := by
    intro i
    unfold toTensor
    apply List.map_congr_left
    intro f hf
    rw [alookup_map_field _ ds f hn (List.mem_filter.mp hf).1]
    rfl
  have hnIn := names_filter_nodup ds (fun f => !f.isTarget) hn
  have hnTg := names_filter_nodup ds (fun f => f.isTarget) hn
  obtain ⟨w', hw⟩ : ∃ w', endidxOf st B - st.curidx = w' + 1 :=
    ⟨endidxOf st B - st.curidx - 1, by omega⟩
  have hlens : ∀ f ∈ ds.filter (fun f => !f.isTarget),
      ((alookup (ds.map (fun g =>
        (g.name, fieldSliceLens g st.curidx (endidxOf st B)))) f.name).getD []) =
      fieldSliceLens f st.curidx (endidxOf st B) := by
    intro f hf
    rw [alookup_map_field _ ds f hn (List.mem_filter.mp hf).1]
    rfl
  simp only [mkBatch, hpad, horig, hrow1, hrow2]
  rw [hw, List.range'_succ]
  rw [foldl_addRow_of_nil (ds.filter (fun f => !f.isTarget)) st.curidx
    (List.range' (st.curidx + 1) w') (fun f i => pad (f.values.getD i [])
      (fieldSliceMax f st.curidx (endidxOf st B))) hnIn]
  rw [foldl_addRow_of_nil (ds.filter (fun f => f.isTarget)) st.curidx
    (List.range' (st.curidx + 1) w') (fun f i => pad (f.values.getD i [])
      (fieldSliceMax f st.curidx (endidxOf st B))) hnTg]
  simp only [List.map_map]
  congr 1
  congr 1
  apply List.map_congr_left
  intro f hf
  simp only [Function.comp]
  rw [hlens f hf]

/-- `StopIteration` state: once the cursor has consumed the ordering, any
amount of further fuel produces no batches and leaves the state alone. -/
theorem runAux_stopped (ds : List Field) (B : Nat) :
    ∀ (fuel : Nat) (st : BatchIter), st.idx_list.length ≤ st.curidx →
      runAux ds B fuel st = ([], st) := by
  intro fuel st h
  cases fuel with
  | zero => rfl
  | succ n => simp [runAux, nextBatch, h]

/-- Corrected-iterator version of `runAux_stopped`. -/
theorem runAuxFixed_stopped (ds : List Field) (B : Nat) :
    ∀ (fuel : Nat) (st : BatchIter), st.idx_list.length ≤ st.curidx →
      runAuxFixed ds B fuel st = ([], st) := by
  intro fuel st h
  cases fuel with
  | zero => rfl
  | succ n => simp [runAuxFixed, nextBatchFixed, h]

/-- One unfolding of the pass when a batch is produced. -/
theorem runAux_step (ds : List Field) (B fuel : Nat) (st : BatchIter)
    (h : st.curidx < st.idx_list.length) :
    runAux ds B (fuel + 1) st =
      ((mkBatch ds B st) ::
          (runAux ds B fuel { st with curidx := st.curidx + endidxOf st B }).1,
        (runAux ds B fuel { st with curidx := st.curidx + endidxOf st B }).2) := by
  simp [runAux, nextBatch, Nat.not_le.mpr h]

/-- One unfolding of the corrected pass when a batch is produced. -/
theorem runAuxFixed_step (ds : List Field) (B fuel : Nat) (st : BatchIter)
    (h : st.curidx < st.idx_list.length) :
    runAuxFixed ds B (fuel + 1) st =
      ((mkBatch ds B st) ::
          (runAuxFixed ds B fuel { st with curidx := endidxOf st B }).1,
        (runAuxFixed ds B fuel { st with curidx := endidxOf st B }).2) := by
  simp [runAuxFixed, nextBatchFixed, Nat.not_le.mpr h]

/-- A pass never touches the sampled ordering. -/
theorem runAux_idx_list (ds : List Field) (B : Nat) :
    ∀ (fuel : Nat) (st : BatchIter), (runAux ds B fuel st).2.idx_list = st.idx_list := by
  intro fuel
  induction fuel with
  | zero => intro st; rfl
  | succ n ih =>
    intro st
    by_cases h : st.idx_list.length ≤ st.curidx
    · rw [runAux_stopped ds B _ st h]
    · rw [runAux_step ds B n st (Nat.not_le.mp h)]
      simpa using ih _

/-- Every batch produced from a state reads only positions at or past that
state's cursor. -/
theorem runAux_idxs_le (ds : List Field) (B : Nat) :
    ∀ (fuel : Nat) (st : BatchIter) (b : BatchOut) (i : Nat),
      b ∈ (runAux ds B fuel st).1 → i ∈ b.idxs → st.curidx ≤ i := by
  intro fuel
  induction fuel with
  | zero => intro st b i hb _; simp [runAux] at hb
  | succ n ih =>
    intro st b i hb hi
    by_cases h : st.idx_list.length ≤ st.curidx
    · rw [runAux_stopped ds B _ st h] at hb
      simp at hb
    · rw [runAux_step ds B n st (Nat.not_le.mp h)] at hb
      rcases List.mem_cons.mp hb with rfl | hb'
      · rw [mkBatch_idxs] at hi
        exact (List.mem_range'_1.mp hi).1
      · have := ih _ b i hb' hi
        simp at this
        omega

/-- With a positive batch size, fuel `len - curidx` drives the cursor past the
end of the ordering. -/
theorem runAux_exhausts (ds : List Field) (B : Nat) (hB : 0 < B) :
    ∀ (fuel : Nat) (st : BatchIter), st.idx_list.length - st.curidx ≤ fuel →
      st.idx_list.length ≤ (runAux ds B fuel st).2.curidx := by
  intro fuel
  induction fuel with
  | zero =>
    intro st h
    have : st.idx_list.length ≤ st.curidx := by omega
    simpa [runAux] using this
  | succ n ih =>
    intro st h
    by_cases hstop : st.idx_list.length ≤ st.curidx
    · rw [runAux_stopped ds B _ st hstop]
      exact hstop
    · have hlt := Nat.not_le.mp hstop
      rw [runAux_step ds B n st hlt]
      have he : st.curidx + 1 ≤ endidxOf st B := by
        unfold endidxOf; omega
      have h2 : st.idx_list.length - (st.curidx + endidxOf st B) ≤ n := by omega
      have := ih { st with curidx := st.curidx + endidxOf st B } (by simpa using h2)
      simpa using this

/-- C5: dataset of 3 instances with "text" lengths [4, 7, 2], batch size 2,
identity sampler [0, 1, 2]: the pass yields exactly two batches — the first
covers instances 0 and 1 with "text" padded to length 7 and
text_origin_len = [4, 7], the second covers instance 2 alone with "text"
padded to length 2 and text_origin_len = [2]. -/
theorem scenario_two_batches :
    runPass dsScenario 2 samplerScenario =
      [⟨[0, 1],
        [("text", TVal.mat [[1, 2, 3, 4, 0, 0, 0], [5, 6, 7, 8, 9, 10, 11]]),
         ("text_origin_len", TVal.vec [4, 7])], []⟩,
       ⟨[2],
        [("text", TVal.mat [[12, 13]]),
         ("text_origin_len", TVal.vec [2])], []⟩] := by
  decide

/-- C1 (defect exhibited): with 5 instances and batch size 2 the pass as coded
yields 2 batches covering positions [0,1] and [2,3] — not ceil(5/2) = 3
batches — and the per-batch instance counts sum to 4, not 5: instance 4 is
silently skipped. -/
theorem five_instance_miscount :
    (runPass dsFive 2 samplerFive).map BatchOut.idxs = [[0, 1], [2, 3]] ∧
    (runPass dsFive 2 samplerFive).length = 2 ∧
    ¬ (runPass dsFive 2 samplerFive).length = (5 + 2 - 1) / 2 ∧
    ((runPass dsFive 2 samplerFive).map
        (fun b => b.idxs.length)).sum = 4 ∧
    ¬ ((runPass dsFive 2 samplerFive).map
        (fun b => b.idxs.length)).sum = 5 := by
  decide

/-- C2: the step advances the cursor by adding `endidx` (`curidx += endidx`)
rather than setting it to `endidx`; with a nonzero starting cursor the new
cursor overshoots `endidx`, and every position in the overshot gap
`[endidx, curidx + endidx)` appears in no batch produced later in the pass. -/
theorem cursor_overshoot_skips (ds : List Field) (B : Nat) (st : BatchIter)
    (fuel j : Nat) (b : BatchOut)
    (hlt : st.curidx < st.idx_list.length) (h0 : 0 < st.curidx)
    (hj1 : endidxOf st B ≤ j) (hj2 : j < st.curidx + endidxOf st B)
    (hb : b ∈ (runAux ds B fuel (nextBatch ds B st).2).1) :
    (nextBatch ds B st).2.curidx = st.curidx + endidxOf st B
    ∧ endidxOf st B < (nextBatch ds B st).2.curidx
    ∧ j ∉ b.idxs := by
  have hcur : (nextBatch ds B st).2 =
      { st with curidx := st.curidx + endidxOf st B } := by
    simp [nextBatch, Nat.not_le.mpr hlt]
  refine ⟨by rw [hcur], by rw [hcur]; simp; omega, ?_⟩
  intro hj
  have hge := runAux_idxs_le ds B fuel _ b j hb hj
  rw [hcur] at hge
  simp at hge
  omega

/-- C2 witness: over five instances with batch size 1, a step from cursor 1
lands the cursor on 3 (= 1 + endidx 2), overshooting endidx, and position 2 is
in no later batch. -/
theorem cursor_overshoot_skips_witness :
    (nextBatch dsFive 1 stMid).2.curidx = stMid.curidx + endidxOf stMid 1
    ∧ endidxOf stMid 1 < (nextBatch dsFive 1 stMid).2.curidx
    ∧ 2 ∉ (mkBatch dsFive 1 ⟨[0, 1, 2, 3, 4], 3, getLength dsFive⟩).idxs :=
  cursor_overshoot_skips dsFive 1 stMid 5 2
    (mkBatch dsFive 1 ⟨[0, 1, 2, 3, 4], 3, getLength dsFive⟩)
    (by decide) (by decide) (by decide) (by decide) (by decide)

/-- C3: for every batch and every field (input or target), the stacked tensor
for that field has one row per slice instance, and row `k` is padded to
exactly the maximum per-instance length of that field over that batch's slice
only — recomputed per batch, independently per field. -/
theorem padding_is_slice_max (ds : List Field) (B : Nat) (st : BatchIter)
    (f : Field) (k : Nat)
    (hB : 0 < B) (hlt : st.curidx < st.idx_list.length)
    (hsnap : st.lengths = getLength ds) (hn : (ds.map Field.name).Nodup)
    (hf : f ∈ ds) (hk : k < endidxOf st B - st.curidx) :
    alookup (if f.isTarget then (mkBatch ds B st).batch_y
        else (mkBatch ds B st).batch_x) f.name =
      some (TVal.mat ((List.range' st.curidx (endidxOf st B - st.curidx)).map
        (fun i => pad (f.values.getD i [])
          (fieldSliceMax f st.curidx (endidxOf st B)))))
    ∧ ((List.range' st.curidx (endidxOf st B - st.curidx)).map
        (fun i => pad (f.values.getD i [])
          (fieldSliceMax f st.curidx (endidxOf st B)))).length
        = endidxOf st B - st.curidx
    ∧ (((List.range' st.curidx (endidxOf st B - st.curidx)).map
        (fun i => pad (f.values.getD i [])
          (fieldSliceMax f st.curidx (endidxOf st B)))).getD k []).length
        = fieldSliceMax f st.curidx (endidxOf st B) := by
  have hend : st.curidx < endidxOf st B := by unfold endidxOf; omega
  rw [mkBatch_eq ds B st hsnap hn hend]
  refine ⟨?_, by simp, ?_⟩
  · cases hT : f.isTarget with
    | true =>
      simp only [if_true]
      exact alookup_map_field _ (ds.filter (fun g => g.isTarget)) f
        (names_filter_nodup ds _ hn) (List.mem_filter.mpr ⟨hf, hT⟩)
    | false =>
      simp only [Bool.false_eq_true, if_false]
      rw [alookup_append]
      rw [alookup_map_field _ (ds.filter (fun g => !g.isTarget)) f
        (names_filter_nodup ds _ hn) (List.mem_filter.mpr ⟨hf, by rw [hT]; rfl⟩)]
      simp
  · rw [List.getD_eq_getElem?_getD, List.getElem?_map,
      List.getElem?_range' _ _ hk]
    simp [pad_length]

/-- C3 witness: in the first scenario batch the "text" tensor has 2 rows, each
padded to exactly the slice maximum 7. -/
theorem padding_is_slice_max_witness :
    alookup (if (⟨"text", false,
          [[1, 2, 3, 4], [5, 6, 7, 8, 9, 10, 11], [12, 13]]⟩ : Field).isTarget
        then (mkBatch dsScenario 2 stScenario).batch_y
        else (mkBatch dsScenario 2 stScenario).batch_x) "text" =
      some (TVal.mat ((List.range' stScenario.curidx
          (endidxOf stScenario 2 - stScenario.curidx)).map
        (fun i => pad (([[1, 2, 3, 4], [5, 6, 7, 8, 9, 10, 11],
            [12, 13]] : List (List Nat)).getD i [])
          (fieldSliceMax ⟨"text", false,
            [[1, 2, 3, 4], [5, 6, 7, 8, 9, 10, 11], [12, 13]]⟩
            stScenario.curidx (endidxOf stScenario 2)))))
    ∧ ((List.range' stScenario.curidx
          (endidxOf stScenario 2 - stScenario.curidx)).map
        (fun i => pad (([[1, 2, 3, 4], [5, 6, 7, 8, 9, 10, 11],
            [12, 13]] : List (List Nat)).getD i [])
          (fieldSliceMax ⟨"text", false,
            [[1, 2, 3, 4], [5, 6, 7, 8, 9, 10, 11], [12, 13]]⟩
            stScenario.curidx (endidxOf stScenario 2)))).length
        = endidxOf stScenario 2 - stScenario.curidx
    ∧ (((List.range' stScenario.curidx
          (endidxOf stScenario 2 - stScenario.curidx)).map
        (fun i => pad (([[1, 2, 3, 4], [5, 6, 7, 8, 9, 10, 11],
            [12, 13]] : List (List Nat)).getD i [])
          (fieldSliceMax ⟨"text", false,
            [[1, 2, 3, 4], [5, 6, 7, 8, 9, 10, 11], [12, 13]]⟩
            stScenario.curidx (endidxOf stScenario 2)))).getD 1 []).length
        = fieldSliceMax ⟨"text", false,
            [[1, 2, 3, 4], [5, 6, 7, 8, 9, 10, 11], [12, 13]]⟩
            stScenario.curidx (endidxOf stScenario 2) :=
  padding_is_slice_max dsScenario 2 stScenario
    ⟨"text", false, [[1, 2, 3, 4], [5, 6, 7, 8, 9, 10, 11], [12, 13]]⟩ 1
    (by decide) (by decide) (by decide) (by decide) (by decide) (by decide)

/-- C4: every input field's batch dictionary carries a companion entry named
by suffixing the field name with "_origin_len"; it is an integer vector with
one entry per slice instance, and its `k`-th entry is the true pre-padding
length of the field value of the `k`-th instance of the slice. -/
theorem origin_len_companion (ds : List Field) (B : Nat) (st : BatchIter)
    (f : Field) (k : Nat)
    (hB : 0 < B) (hlt : st.curidx < st.idx_list.length)
    (hsnap : st.lengths = getLength ds) (hn : (ds.map Field.name).Nodup)
    (hf : f ∈ ds) (hx : f.isTarget = false)
    (hlen : st.idx_list.length ≤ f.values.length)
    (hk : k < endidxOf st B - st.curidx) :
    (f.name ++ "_origin_len",
        TVal.vec (fieldSliceLens f st.curidx (endidxOf st B)))
      ∈ (mkBatch ds B st).batch_x
    ∧ (fieldSliceLens f st.curidx (endidxOf st B)).length
        = (mkBatch ds B st).idxs.length
    ∧ (fieldSliceLens f st.curidx (endidxOf st B)).getD k 0
        = (f.values.getD (st.curidx + k) []).length := by
  have hend : st.curidx < endidxOf st B := by unfold endidxOf; omega
  have hee : endidxOf st B ≤ st.idx_list.length := by unfold endidxOf; omega
  rw [mkBatch_eq ds B st hsnap hn hend]
  refine ⟨?_, ?_, ?_⟩
  · apply List.mem_append_right
    exact List.mem_map_of_mem _ (List.mem_filter.mpr ⟨hf, by rw [hx]; rfl⟩)
  · unfold fieldSliceLens
    simp
    omega
  · have hidx : st.curidx + k < f.values.length := by omega
    unfold fieldSliceLens
    rw [List.getD_eq_getElem?_getD, List.getElem?_take_of_lt hk,
      List.getElem?_drop, List.getElem?_map,
      List.getElem?_eq_getElem hidx]
    rw [List.getD_eq_getElem?_getD, List.getElem?_eq_getElem hidx]
    simp

/-- C4 witness: the scenario's first batch carries
`text_origin_len = [4, 7]`, of length 2, whose entry 1 is instance 1's true
length 7. -/
theorem origin_len_companion_witness :
    ("text" ++ "_origin_len",
        TVal.vec (fieldSliceLens ⟨"text", false,
          [[1, 2, 3, 4], [5, 6, 7, 8, 9, 10, 11], [12, 13]]⟩
          stScenario.curidx (endidxOf stScenario 2)))
      ∈ (mkBatch dsScenario 2 stScenario).batch_x
    ∧ (fieldSliceLens ⟨"text", false,
          [[1, 2, 3, 4], [5, 6, 7, 8, 9, 10, 11], [12, 13]]⟩
          stScenario.curidx (endidxOf stScenario 2)).length
        = (mkBatch dsScenario 2 stScenario).idxs.length
    ∧ (fieldSliceLens ⟨"text", false,
          [[1, 2, 3, 4], [5, 6, 7, 8, 9, 10, 11], [12, 13]]⟩
          stScenario.curidx (endidxOf stScenario 2)).getD 1 0
        = (([[1, 2, 3, 4], [5, 6, 7, 8, 9, 10, 11],
            [12, 13]] : List (List Nat)).getD (stScenario.curidx + 1) []).length :=
  origin_len_companion dsScenario 2 stScenario
    ⟨"text", false, [[1, 2, 3, 4], [5, 6, 7, 8, 9, 10, 11], [12, 13]]⟩ 1
    (by decide) (by decide) (by decide) (by decide) (by decide) (by decide)
    (by decide) (by decide)

/-- C6: the target dictionary's keys are exactly the target field names (no
auxiliary entries at all — in particular no `_origin_len` vector is ever a
value in it), while the input dictionary's keys are the input field names
followed by their `_origin_len` companions. -/
theorem target_map_no_origin_len (ds : List Field) (B : Nat) (st : BatchIter)
    (s : String) (v : List Nat)
    (hB : 0 < B) (hlt : st.curidx < st.idx_list.length)
    (hsnap : st.lengths = getLength ds) (hn : (ds.map Field.name).Nodup) :
    (mkBatch ds B st).batch_y.map Prod.fst =
      (ds.filter (fun f => f.isTarget)).map Field.name
    ∧ (mkBatch ds B st).batch_x.map Prod.fst =
        (ds.filter (fun f => !f.isTarget)).map Field.name ++
        ((ds.filter (fun f => !f.isTarget)).map Field.name).map
          (fun n => n ++ "_origin_len")
    ∧ (s, TVal.vec v) ∉ (mkBatch ds B st).batch_y := by
  have hend : st.curidx < endidxOf st B := by unfold endidxOf; omega
  rw [mkBatch_eq ds B st hsnap hn hend]
  refine ⟨by simp only [List.map_map]; rfl,
    by simp only [List.map_append, List.map_map]; rfl, ?_⟩
  intro hmem
  rcases List.mem_map.mp hmem with ⟨f, _, heq⟩
  exact TVal.noConfusion (congrArg Prod.snd heq)

/-- C6 witness: instantiated over a dataset with both an input and a target
field. -/
theorem target_map_no_origin_len_witness :
    (mkBatch dsPair 2 stPair).batch_y.map Prod.fst =
      (dsPair.filter (fun f => f.isTarget)).map Field.name
    ∧ (mkBatch dsPair 2 stPair).batch_x.map Prod.fst =
        (dsPair.filter (fun f => !f.isTarget)).map Field.name ++
        ((dsPair.filter (fun f => !f.isTarget)).map Field.name).map
          (fun n => n ++ "_origin_len")
    ∧ ("label" ++ "_origin_len", TVal.vec [1, 1]) ∉ (mkBatch dsPair 2 stPair).batch_y :=
  target_map_no_origin_len dsPair 2 stPair ("label" ++ "_origin_len") [1, 1]
    (by decide) (by decide) (by decide) (by decide)

/-- C7: the step signals end-of-sequence exactly when the cursor has consumed
the index ordering; in that case the state is untouched and no batch is
produced, and in every other case a batch is produced. -/
theorem stop_iff_exhausted (ds : List Field) (B : Nat) (st : BatchIter) :
    ((nextBatch ds B st).1 = none ↔ st.idx_list.length ≤ st.curidx)
    ∧ (st.idx_list.length ≤ st.curidx → (nextBatch ds B st).2 = st)
    ∧ (st.curidx < st.idx_list.length →
        (nextBatch ds B st).1 = some (mkBatch ds B st)) := by
  by_cases h : st.idx_list.length ≤ st.curidx <;> simp [nextBatch, h]

/-- C8: re-entering a pass discards the prior state entirely — the new state
has cursor 0, a freshly sampled ordering, and a fresh length snapshot — while
stepping within a pass never changes the ordering or the snapshot. -/
theorem restart_resets (ds : List Field) (sampler : List Field → List Nat)
    (st st2 : BatchIter) (B : Nat) :
    iterStart ds sampler st = iterStart ds sampler st2
    ∧ (iterStart ds sampler st).curidx = 0
    ∧ (iterStart ds sampler st).idx_list = sampler ds
    ∧ (iterStart ds sampler st).lengths = getLength ds
    ∧ (nextBatch ds B st).2.lengths = st.lengths
    ∧ (nextBatch ds B st).2.idx_list = st.idx_list := by
  refine ⟨rfl, rfl, rfl, rfl, ?_, ?_⟩ <;>
    by_cases h : st.idx_list.length ≤ st.curidx <;> simp [nextBatch, h]

/-- C10: with a positive batch size every pass terminates — each successful
step strictly passes the cursor beyond its starting value (`endidx > curidx`)
and the cursor lands at or beyond `endidx`, so fuel `len - curidx` suffices to
reach the `StopIteration` state — and an empty ordering yields zero batches. -/
theorem pass_terminates (ds : List Field) (B : Nat) (st : BatchIter)
    (fuel : Nat) (hB : 0 < B) :
    (st.curidx < st.idx_list.length →
      st.curidx < endidxOf st B ∧ endidxOf st B ≤ (nextBatch ds B st).2.curidx)
    ∧ (st.idx_list.length - st.curidx ≤ fuel →
        st.idx_list.length ≤ (runAux ds B fuel st).2.curidx
        ∧ (nextBatch ds B (runAux ds B fuel st).2).1 = none)
    ∧ (st.idx_list = [] → (runAux ds B fuel st).1 = []) := by
  refine ⟨?_, ?_, ?_⟩
  · intro h
    refine ⟨by unfold endidxOf; omega, ?_⟩
    have hc : (nextBatch ds B st).2 =
        { st with curidx := st.curidx + endidxOf st B } := by
      simp [nextBatch, Nat.not_le.mpr h]
    rw [hc]
    simp
  · intro h
    have h1 := runAux_exhausts ds B hB fuel st h
    refine ⟨h1, ?_⟩
    have h2 := runAux_idx_list ds B fuel st
    unfold nextBatch
    rw [if_pos (by rw [h2]; exact h1)]
  · intro h
    rw [runAux_stopped ds B fuel st (by simp [h])]

/-- C9: whenever the dataset size N is at most twice the batch size, the pass
as coded (cursor `+= endidx`) produces exactly the same batch sequence as the
corrected pass (cursor `= endidx`): ceil(N/B) batches whose slices
concatenate to the full position range, covering every sampled index exactly
once — so the cursor defect is observable only when N > 2B. -/
theorem small_pass_equiv (ds : List Field) (B : Nat)
    (sampler : List Field → List Nat) (i : Nat)
    (hB : 0 < B) (hN : (sampler ds).length ≤ 2 * B)
    (hperm : List.Perm (sampler ds) (List.range (sampler ds).length))
    (hi : i ∈ sampler ds) :
    runPass ds B sampler = runPassFixed ds B sampler
    ∧ (runPass ds B sampler).length = ((sampler ds).length + B - 1) / B
    ∧ ((runPass ds B sampler).map BatchOut.idxs).join
        = List.range (sampler ds).length
    ∧ (((runPass ds B sampler).map BatchOut.idxs).join).count i = 1 := by
  have hpass : runPass ds B sampler =
      (runAux ds B (sampler ds).length ⟨sampler ds, 0, getLength ds⟩).1 := rfl
  have hpassF : runPassFixed ds B sampler =
      (runAuxFixed ds B (sampler ds).length ⟨sampler ds, 0, getLength ds⟩).1 := rfl
  by_cases h0 : (sampler ds).length = 0
  · exact absurd hi (by simp [List.length_eq_zero.mp h0])
  by_cases hNB : (sampler ds).length ≤ B
  · -- one-batch pass: 1 ≤ N ≤ B
    obtain ⟨n, hn⟩ : ∃ n, (sampler ds).length = n + 1 :=
      ⟨(sampler ds).length - 1, by omega⟩
    have hlt0 : (⟨sampler ds, 0, getLength ds⟩ : BatchIter).curidx <
        (⟨sampler ds, 0, getLength ds⟩ : BatchIter).idx_list.length := by
      show 0 < (sampler ds).length
      omega
    have he : endidxOf ⟨sampler ds, 0, getLength ds⟩ B = (sampler ds).length := by
      show min (0 + B) (sampler ds).length = (sampler ds).length
      omega
    have hrun : runPass ds B sampler =
        [mkBatch ds B ⟨sampler ds, 0, getLength ds⟩] := by
      rw [hpass]
      conv_lhs => rw [hn]
      rw [runAux_step ds B n _ hlt0]
      have hstop1 : ({ (⟨sampler ds, 0, getLength ds⟩ : BatchIter) with
          curidx := (⟨sampler ds, 0, getLength ds⟩ : BatchIter).curidx
            + endidxOf ⟨sampler ds, 0, getLength ds⟩ B }).idx_list.length ≤
          ({ (⟨sampler ds, 0, getLength ds⟩ : BatchIter) with
          curidx := (⟨sampler ds, 0, getLength ds⟩ : BatchIter).curidx
            + endidxOf ⟨sampler ds, 0, getLength ds⟩ B }).curidx := by
        show (sampler ds).length ≤ 0 + endidxOf ⟨sampler ds, 0, getLength ds⟩ B
        rw [he]
        omega
      rw [runAux_stopped ds B n _ hstop1]
    have hrunF : runPassFixed ds B sampler =
        [mkBatch ds B ⟨sampler ds, 0, getLength ds⟩] := by
      rw [hpassF]
      conv_lhs => rw [hn]
      rw [runAuxFixed_step ds B n _ hlt0]
      have hstop1 : ({ (⟨sampler ds, 0, getLength ds⟩ : BatchIter) with
          curidx := endidxOf ⟨sampler ds, 0, getLength ds⟩ B }).idx_list.length ≤
          ({ (⟨sampler ds, 0, getLength ds⟩ : BatchIter) with
          curidx := endidxOf ⟨sampler ds, 0, getLength ds⟩ B }).curidx := by
        show (sampler ds).length ≤ endidxOf ⟨sampler ds, 0, getLength ds⟩ B
        rw [he]
      rw [runAuxFixed_stopped ds B n _ hstop1]
    have hjoin : ((runPass ds B sampler).map BatchOut.idxs).join
        = List.range (sampler ds).length := by
      rw [hrun]
      simp [mkBatch_idxs, he, List.range_eq_range']
    refine ⟨hrun.trans hrunF.symm, ?_, hjoin, ?_⟩
    · rw [hrun]
      show 1 = ((sampler ds).length + B - 1) / B
      exact (Nat.div_eq_of_lt_le (by omega) (by omega)).symm
    · rw [hjoin]
      exact List.count_eq_one_of_mem (List.nodup_range _) (hperm.mem_iff.mp hi)
  · -- two-batch pass: B < N ≤ 2B
    obtain ⟨n, hn⟩ : ∃ n, (sampler ds).length = n + 2 :=
      ⟨(sampler ds).length - 2, by omega⟩
    have hlt0 : (⟨sampler ds, 0, getLength ds⟩ : BatchIter).curidx <
        (⟨sampler ds, 0, getLength ds⟩ : BatchIter).idx_list.length := by
      show 0 < (sampler ds).length
      omega
    have he0 : endidxOf ⟨sampler ds, 0, getLength ds⟩ B = B := by
      show min (0 + B) (sampler ds).length = B
      omega
    have hst1 : ({ (⟨sampler ds, 0, getLength ds⟩ : BatchIter) with
        curidx := (⟨sampler ds, 0, getLength ds⟩ : BatchIter).curidx
          + endidxOf ⟨sampler ds, 0, getLength ds⟩ B }) =
        (⟨sampler ds, B, getLength ds⟩ : BatchIter) := by
      simp [he0]
    have hst1F : ({ (⟨sampler ds, 0, getLength ds⟩ : BatchIter) with
        curidx := endidxOf ⟨sampler ds, 0, getLength ds⟩ B }) =
        (⟨sampler ds, B, getLength ds⟩ : BatchIter) := by
      simp [he0]
    have hlt1 : (⟨sampler ds, B, getLength ds⟩ : BatchIter).curidx <
        (⟨sampler ds, B, getLength ds⟩ : BatchIter).idx_list.length := by
      show B < (sampler ds).length
      omega
    have he1 : endidxOf ⟨sampler ds, B, getLength ds⟩ B = (sampler ds).length := by
      show min (B + B) (sampler ds).length = (sampler ds).length
      omega
    have hrun : runPass ds B sampler =
        [mkBatch ds B ⟨sampler ds, 0, getLength ds⟩,
         mkBatch ds B ⟨sampler ds, B, getLength ds⟩] := by
      rw [hpass]
      conv_lhs => rw [hn]
      rw [runAux_step ds B (n + 1) _ hlt0, hst1]
      rw [runAux_step ds B n _ hlt1]
      have hstop2 : ({ (⟨sampler ds, B, getLength ds⟩ : BatchIter) with
          curidx := (⟨sampler ds, B, getLength ds⟩ : BatchIter).curidx
            + endidxOf ⟨sampler ds, B, getLength ds⟩ B }).idx_list.length ≤
          ({ (⟨sampler ds, B, getLength ds⟩ : BatchIter) with
          curidx := (⟨sampler ds, B, getLength ds⟩ : BatchIter).curidx
            + endidxOf ⟨sampler ds, B, getLength ds⟩ B }).curidx := by
        show (sampler ds).length ≤ B + endidxOf ⟨sampler ds, B, getLength ds⟩ B
        rw [he1]
        omega
      rw [runAux_stopped ds B n _ hstop2]
    have hrunF : runPassFixed ds B sampler =
        [mkBatch ds B ⟨sampler ds, 0, getLength ds⟩,
         mkBatch ds B ⟨sampler ds, B, getLength ds⟩] := by
      rw [hpassF]
      conv_lhs => rw [hn]
      rw [runAuxFixed_step ds B (n + 1) _ hlt0, hst1F]
      rw [runAuxFixed_step ds B n _ hlt1]
      have hstop2 : ({ (⟨sampler ds, B, getLength ds⟩ : BatchIter) with
          curidx := endidxOf ⟨sampler ds, B, getLength ds⟩ B }).idx_list.length ≤
          ({ (⟨sampler ds, B, getLength ds⟩ : BatchIter) with
          curidx := endidxOf ⟨sampler ds, B, getLength ds⟩ B }).curidx := by
        show (sampler ds).length ≤ endidxOf ⟨sampler ds, B, getLength ds⟩ B
        rw [he1]
      rw [runAuxFixed_stopped ds B n _ hstop2]
    have hjoin : ((runPass ds B sampler).map BatchOut.idxs).join
        = List.range (sampler ds).length := by
      rw [hrun]
      simp only [List.map_cons, List.map_nil, mkBatch_idxs, he0, he1,
        List.flatten_cons, List.flatten_nil, List.append_nil]
      have hr : List.range' B ((sampler ds).length - B) =
          List.range' (0 + B) ((sampler ds).length - B) := by
        rw [Nat.zero_add]
      rw [Nat.sub_zero, hr, List.range'_append_1]
      have hs : (sampler ds).length - B + B = (sampler ds).length := by omega
      rw [hs, List.range_eq_range']
    refine ⟨hrun.trans hrunF.symm, ?_, hjoin, ?_⟩
    · rw [hrun]
      show 2 = ((sampler ds).length + B - 1) / B
      exact (Nat.div_eq_of_lt_le (by omega) (by omega)).symm
    · rw [hjoin]
      exact List.count_eq_one_of_mem (List.nodup_range _) (hperm.mem_iff.mp hi)

/-- C9 witness: the three-instance scenario with batch size 2 (N = 3 ≤ 2B = 4)
— the defective and corrected passes coincide, with 2 batches jointly covering
positions 0, 1, 2, and sampled index 1 covered exactly once. -/
theorem small_pass_equiv_witness :
    runPass dsScenario 2 samplerScenario = runPassFixed dsScenario 2 samplerScenario
    ∧ (runPass dsScenario 2 samplerScenario).length
        = ((samplerScenario dsScenario).length + 2 - 1) / 2
    ∧ ((runPass dsScenario 2 samplerScenario).map BatchOut.idxs).join
        = List.range (samplerScenario dsScenario).length
    ∧ (((runPass dsScenario 2 samplerScenario).map BatchOut.idxs).join).count 1 = 1 :=
  small_pass_equiv dsScenario 2 samplerScenario 1
    (by decide) (by decide) (by decide) (by decide)

/-- C10 witness: instantiated over the five-instance dataset with batch
size 1 and fuel 5. -/
theorem pass_terminates_witness :
    (stMid.curidx < stMid.idx_list.length →
      stMid.curidx < endidxOf stMid 1
      ∧ endidxOf stMid 1 ≤ (nextBatch dsFive 1 stMid).2.curidx)
    ∧ (stMid.idx_list.length - stMid.curidx ≤ 5 →
        stMid.idx_list.length ≤ (runAux dsFive 1 5 stMid).2.curidx
        ∧ (nextBatch dsFive 1 (runAux dsFive 1 5 stMid).2).1 = none)
    ∧ (stMid.idx_list = [] → (runAux dsFive 1 5 stMid).1 = []) :=
  pass_terminates dsFive 1 stMid 5 (by decide)

end FastNLP
